import Mathlib

/-!
Verification development for the modeline plugin core (src/modeline.c).

C strings are modelled as `List Char`; the GLib string helpers the code
calls (`g_strstrip`, `g_strstr_len`, `g_strsplit_set`, `g_strsplit`,
`g_ascii_strcasecmp`, `g_ascii_strtoull`) are embedded below with the
semantics documented by GLib.  A document is a list of lines plus a
mutable configuration record (indent type, indent width, line wrapping,
encoding); the host-editor mutators (`editor_set_indent_type`,
`editor_set_indent_width`, `scintilla_send_message` for wrap,
`document_set_encoding`) are modelled as pure updates of that record.
Documents are modelled as valid (`doc->is_valid` true).
-/

/-- A C string: a list of characters (all modeline content is ASCII). -/
abbrev CStr := List Char

/-- Helper to write `CStr` literals. -/
def cs (s : String) : CStr := s.toList

/-- `g_ascii_isspace`: the six ASCII whitespace characters. -/
def g_ascii_isspace (c : Char) : Bool :=
  c == ' ' || c == '\t' || c == '\n' || c == '\x0b' || c == '\x0c' || c == '\r'

/-- `g_strstrip`: remove leading and trailing ASCII whitespace. -/
def g_strstrip (s : CStr) : CStr :=
  ((s.dropWhile g_ascii_isspace).reverse.dropWhile g_ascii_isspace).reverse

/-- `needle` occurs at the start of `s` (byte-wise `strncmp`-style test). -/
def leadsWith : CStr → CStr → Bool
  | [], _ => true
  | _ :: _, [] => false
  | a :: as, b :: bs => a == b && leadsWith as bs

/-- `g_strstr_len (hay, -1, needle) != NULL`: `needle` occurs as a
substring of `hay` at some position. -/
def g_strstr : CStr → CStr → Bool
  | [], needle => needle.isEmpty
  | a :: as, needle => leadsWith needle (a :: as) || g_strstr as needle

/-- Accumulator pass of `g_strsplit_set`: split on any delimiter
character, keeping empty fields. -/
def g_strsplit_set_go (delims : List Char) : CStr → CStr → List CStr
  | [], acc => [acc.reverse]
  | c :: rest, acc =>
    if delims.contains c then acc.reverse :: g_strsplit_set_go delims rest []
    else g_strsplit_set_go delims rest (c :: acc)

/-- `g_strsplit_set (s, delims, 0)`: split `s` at every delimiter
character (runs of delimiters produce empty fields); the empty string
yields an empty vector. -/
def g_strsplit_set (s : CStr) (delims : List Char) : List CStr :=
  if s.isEmpty then [] else g_strsplit_set_go delims s []

/-- `g_strsplit (s, "=", 2)`: at most two tokens — the part before the
first `=` and the unsplit remainder after it; the empty string yields an
empty vector; a string with no `=` yields a one-element vector.
`g_strsplit` never returns NULL. -/
def g_strsplit_eq2 (s : CStr) : List CStr :=
  if s.isEmpty then []
  else
    match s.dropWhile (fun c => c != '=') with
    | [] => [s.takeWhile (fun c => c != '=')]
    | _ :: tail => [s.takeWhile (fun c => c != '='), tail]

/-- `g_ascii_tolower` on the byte value of a character. -/
def g_ascii_tolowerN (c : Char) : Nat :=
  if 65 ≤ c.toNat && c.toNat ≤ 90 then c.toNat + 32 else c.toNat

/-- `g_ascii_strcasecmp (a, b) == 0`: ASCII case-insensitive equality. -/
def g_ascii_strcaseeq (a b : CStr) : Bool :=
  a.map g_ascii_tolowerN == b.map g_ascii_tolowerN

/-- `G_MAXUINT64`. -/
def G_MAXUINT64 : Nat := 2 ^ 64 - 1

/-- The unbounded value of a run of decimal digits. -/
def digitsVal (ds : CStr) : Nat :=
  ds.foldl (fun a c => a * 10 + (c.toNat - 48)) 0

/-- `g_ascii_strtoull (s, NULL, 10)`, after `g_parse_long_long`: skip
C-locale whitespace; accept an optional `-` or `+` sign; consume the
leading run of decimal digits (with base 10 any other character breaks
the loop).  No digits consumed is no conversion: return 0.  A magnitude
beyond `G_MAXUINT64` makes the `cutoff`/`cutlim` check set `overflow`
and the function returns `G_MAXUINT64`; taking the unbounded digit
value clamped to `G_MAXUINT64` is equivalent, since the check fires
exactly when the full run exceeds the maximum.  A `-` sign negates the
(possibly clamped) result in unsigned 64-bit arithmetic. -/
def g_ascii_strtoull10 (s : CStr) : Nat :=
  let s1 := s.dropWhile g_ascii_isspace
  let neg : Bool := match s1 with
    | '-' :: _ => true
    | _ => false
  let s2 : CStr := match s1 with
    | '-' :: r => r
    | '+' :: r => r
    | r => r
  let digits := s2.takeWhile Char.isDigit
  if digits.isEmpty then 0
  else
    let mag := min (digitsVal digits) G_MAXUINT64
    if neg then (2 ^ 64 - mag) % 2 ^ 64 else mag

/-- The C conversion `gint iarg = <guint64 value>;` (as compiled in
practice): reduce modulo `2^32` and read the 32-bit pattern as a
twos-complement signed integer. -/
def gint_of_guint64 (u : Nat) : Int :=
  let r : Nat := u % 2 ^ 32
  if r < 2 ^ 31 then (r : Int) else (r : Int) - 2 ^ 32

/-- `enum mode_opt_arg`. -/
inductive ModeOptArg where
  | int      -- MODE_OPT_ARG_INT
  | argTrue  -- MODE_OPT_ARG_TRUE
  | argFalse -- MODE_OPT_ARG_FALSE
  | str      -- MODE_OPT_ARG_STR
deriving DecidableEq

/-- Identifier for the four handler callbacks (the function pointers in
the `opts` table). -/
inductive HandlerId where
  | expandTab -- &opt_expand_tab
  | tabStop   -- &opt_tab_stop
  | wrap      -- &opt_wrap
  | enc       -- &opt_enc
deriving DecidableEq

/-- `struct mode_opt`: name, short alias (NULL-able), argument type,
callback. -/
structure ModeOpt where
  name : CStr
  shortAlias : Option CStr
  arg_type : ModeOptArg
  cb : HandlerId
deriving DecidableEq

/-- The static `opts` table (sentinel row omitted; the Lean list end
plays its role). -/
def opts : List ModeOpt :=
  [ ⟨cs "expandtab",    some (cs "et"),  .argTrue,  .expandTab⟩,
    ⟨cs "noexpandtab",  none,            .argFalse, .expandTab⟩,
    ⟨cs "tabstop",      some (cs "ts"),  .int,      .tabStop⟩,
    ⟨cs "softtabstop",  some (cs "sts"), .int,      .tabStop⟩,
    ⟨cs "shiftwidth",   some (cs "sw"),  .int,      .tabStop⟩,
    ⟨cs "wrap",         none,            .argTrue,  .wrap⟩,
    ⟨cs "nowrap",       none,            .argFalse, .wrap⟩,
    ⟨cs "fileencoding", some (cs "encoding"), .str, .enc⟩ ]

/-- The static `mode_pre` table of modeline markers. -/
def mode_pre : List CStr :=
  [cs " geany:", cs " vi:", cs " vim:", cs " ex:"]

/-- `GEANY_INDENT_TYPE_TABS` / `GEANY_INDENT_TYPE_SPACES`. -/
inductive IndentType where
  | tabs
  | spaces
deriving DecidableEq

/-- The document configuration the handlers mutate through the host
editor API. -/
@[ext]
structure DocConfig where
  indentType : IndentType
  indentWidth : Int
  lineWrapping : Bool
  encoding : CStr
deriving DecidableEq

/-- `opt_expand_tab`: nonzero `gint` argument sets spaces, zero sets
tabs. -/
def opt_expand_tab (cfg : DocConfig) (iarg : Int) : DocConfig :=
  { cfg with indentType := if iarg != 0 then IndentType.spaces else IndentType.tabs }

/-- `opt_tab_stop`: read the current indent prefs, set the indent width
to the `gint` argument, then re-apply the previously read indent type. -/
def opt_tab_stop (cfg : DocConfig) (iarg : Int) : DocConfig :=
  let prefsType := cfg.indentType
  let cfg1 := { cfg with indentWidth := iarg }
  { cfg1 with indentType := prefsType }

/-- `opt_wrap`: set line wrapping from the nonzero-ness of the `gint`
argument. -/
def opt_wrap (cfg : DocConfig) (iarg : Int) : DocConfig :=
  { cfg with lineWrapping := iarg != 0 }

/-- `opt_enc`: `document_set_encoding (doc, str)` with the raw value. -/
def opt_enc (cfg : DocConfig) (s : CStr) : DocConfig :=
  { cfg with encoding := s }

/-- Argument a handler is invoked with: a `gint` or a string. -/
inductive HandlerArg where
  | int (n : Int)
  | str (s : CStr)
deriving DecidableEq

/-- One handler invocation: which callback, with which argument. -/
structure Invocation where
  cb : HandlerId
  arg : HandlerArg
deriving DecidableEq

/-- The table scan of `interpret_option`: first row whose `name` (or
non-NULL `alias`) case-insensitively equals `key`. -/
def lookup_opt (key : CStr) : Option ModeOpt :=
  opts.find? (fun o =>
    g_ascii_strcaseeq o.name key ||
      (match o.shortAlias with
       | some a => g_ascii_strcaseeq a key
       | none => false))

/-- Which handler invocation (if any) `interpret_option` performs on a
token.  The control flow computing the callback and its argument does
not read the document, so it is factored out here.
`kv = g_strsplit (opt, "=", 2)` is never NULL, so the `else` branch of
the source (`key = opt; val = NULL`) is unreachable; `key = kv[0]` or
`val = kv[1]` is NULL exactly when the vector has fewer than two
entries, and the function then returns without dispatching.  In the
dispatch the `if (val)` guards of the INT and STR cases always hold,
since a NULL `val` returned earlier. -/
def interpret_option_ev (opt : CStr) : Option Invocation :=
  match g_strsplit_eq2 opt with
  | [key, val] =>
    match lookup_opt key with
    | some o =>
      match o.arg_type with
      | .argTrue => some ⟨o.cb, .int 1⟩
      | .argFalse => some ⟨o.cb, .int 0⟩
      | .int => some ⟨o.cb, .int (gint_of_guint64 (g_ascii_strtoull10 (g_strstrip val)))⟩
      | .str => some ⟨o.cb, .str val⟩
    | none => none
  | _ => none

/-- Run one handler invocation (`opts[i].cb (doc, &iarg)` resp.
`opts[i].cb (doc, val)`).  The table only ever pairs `expandTab`,
`tabStop`, `wrap` with integer arguments and `enc` with a string
argument; the remaining patterns are unreachable. -/
def apply_inv (cfg : DocConfig) (inv : Invocation) : DocConfig :=
  match inv.cb, inv.arg with
  | .expandTab, .int n => opt_expand_tab cfg n
  | .tabStop, .int n => opt_tab_stop cfg n
  | .wrap, .int n => opt_wrap cfg n
  | .enc, .str s => opt_enc cfg s
  | _, _ => cfg

/-- `interpret_option`: dispatch the token's invocation, if any. -/
def interpret_option (cfg : DocConfig) (opt : CStr) : DocConfig :=
  match interpret_option_ev opt with
  | some inv => apply_inv cfg inv
  | none => cfg

/-- The token sequence `parse_options` feeds to `interpret_option`:
split the modeline on `":"`, `" "`, `","` and omit `tok[0]` (the
comment-sign field).  The loop `for (i = 1; tok[i]; i++)` visits every
remaining field up to the NULL terminator; its `if (tok[i])` test is
always true, so empty fields are passed through. -/
def tokenize (buf : CStr) : List CStr :=
  (g_strsplit_set buf [':', ' ', ',']).drop 1

/-- `parse_options`: interpret each token of the modeline in order. -/
def parse_options (cfg : DocConfig) (buf : CStr) : DocConfig :=
  (tokenize buf).foldl interpret_option cfg

/-- The per-line test of `scan_document`: some `mode_pre` marker occurs
as a substring of the whitespace-stripped line. -/
def line_matches (l : CStr) : Bool :=
  mode_pre.any (fun p => g_strstr (g_strstrip l) p)

/-- The line loop of `scan_document`: strip each line, and on the first
line containing a marker, parse that stripped line and stop. -/
def scan_go (cfg : DocConfig) : List CStr → DocConfig
  | [] => cfg
  | l :: ls =>
    let buf := g_strstrip l
    if mode_pre.any (fun p => g_strstr buf p) then parse_options cfg buf
    else scan_go cfg ls

/-- `scan_document`: visit lines `0 .. MIN (lines, 50) - 1` in order. -/
def scan_document (cfg : DocConfig) (docLines : List CStr) : DocConfig :=
  scan_go cfg (docLines.take 50)

/-- `on_document_open`: scan, then `document_reload_force (doc,
doc->encoding)` — the reload re-decodes the buffer with the current
(possibly just-set) encoding and changes no configuration field. -/
def on_document_open (cfg : DocConfig) (docLines : List CStr) : DocConfig :=
  scan_document cfg docLines

/-- `on_document_save`: scan only. -/
def on_document_save (cfg : DocConfig) (docLines : List CStr) : DocConfig :=
  scan_document cfg docLines

/-- The indent-type value an invocation writes, if any (`opt_tab_stop`
re-applies the current type, a net no-op on that field). -/
def writesType : Invocation → Option IndentType
  | ⟨.expandTab, .int n⟩ => some (if n != 0 then IndentType.spaces else IndentType.tabs)
  | _ => none

/-- The indent-width value an invocation writes, if any. -/
def writesWidth : Invocation → Option Int
  | ⟨.tabStop, .int n⟩ => some n
  | _ => none

/-- The line-wrapping value an invocation writes, if any. -/
def writesWrap : Invocation → Option Bool
  | ⟨.wrap, .int n⟩ => some (n != 0)
  | _ => none

/-- The encoding value an invocation writes, if any. -/
def writesEnc : Invocation → Option CStr
  | ⟨.enc, .str s⟩ => some s
  | _ => none

/-- The last write a sequence of invocations makes through `f`. -/
def lastW {α : Type} (f : Invocation → Option α) : List Invocation → Option α
  | [] => none
  | i :: is =>
    match lastW f is with
    | some v => some v
    | none => f i

/-- The scanner loop returns the parse of the first matching line and
leaves the configuration untouched when no line matches. -/
theorem scan_go_eq_find (ls : List CStr) (cfg : DocConfig) :
    scan_go cfg ls =
      match ls.find? line_matches with
      | some l => parse_options cfg (g_strstrip l)
      | none => cfg := by
  induction ls with
  | nil => rfl
  | cons l ls ih =>
    cases h : line_matches l with
    | true =>
      rw [List.find?_cons_of_pos ls h]
      show (if line_matches l then parse_options cfg (g_strstrip l) else scan_go cfg ls) =
        parse_options cfg (g_strstrip l)
      rw [h]
      rfl
    | false =>
      rw [List.find?_cons_of_neg ls (by simp [h])]
      show (if line_matches l then parse_options cfg (g_strstrip l) else scan_go cfg ls) =
        _
      rw [h]
      simpa using ih

/-- A character list without `=` is untouched by the take of the split. -/
theorem takeWhile_no_eq (key : CStr) (h : '=' ∉ key) :
    key.takeWhile (fun c => c != '=') = key := by
  induction key with
  | nil => rfl
  | cons c ks ih =>
    have hc : c ≠ '=' := fun e => h (e ▸ List.mem_cons_self c ks)
    simp only [List.takeWhile_cons, bne_iff_ne, ne_eq, hc, not_false_eq_true, if_true,
      List.cons.injEq, true_and]
    exact ih fun m => h (List.mem_cons_of_mem c m)

/-- A character list without `=` is fully consumed by the drop of the
split. -/
theorem dropWhile_no_eq (key : CStr) (h : '=' ∉ key) :
    key.dropWhile (fun c => c != '=') = [] := by
  induction key with
  | nil => rfl
  | cons c ks ih =>
    have hc : c ≠ '=' := fun e => h (e ▸ List.mem_cons_self c ks)
    simp only [List.dropWhile_cons, bne_iff_ne, ne_eq, hc, not_false_eq_true, if_true]
    exact ih fun m => h (List.mem_cons_of_mem c m)

/-- Dual form on an appended `=val` suffix: the take stops exactly at
the appended `=`. -/
theorem takeWhile_append_no_eq (val key : CStr) (h : '=' ∉ key) :
    (key ++ '=' :: val).takeWhile (fun c => c != '=') = key := by
  induction key with
  | nil => rfl
  | cons c ks ih =>
    have hc : c ≠ '=' := fun e => h (e ▸ List.mem_cons_self c ks)
    simp only [List.cons_append, List.takeWhile_cons, bne_iff_ne, ne_eq, hc,
      not_false_eq_true, if_true, List.cons.injEq, true_and]
    exact ih fun m => h (List.mem_cons_of_mem c m)

/-- Dual form on an appended `=val` suffix: the drop lands exactly on
the appended `=`. -/
theorem dropWhile_append_no_eq (val key : CStr) (h : '=' ∉ key) :
    (key ++ '=' :: val).dropWhile (fun c => c != '=') = '=' :: val := by
  induction key with
  | nil => rfl
  | cons c ks ih =>
    have hc : c ≠ '=' := fun e => h (e ▸ List.mem_cons_self c ks)
    simp only [List.cons_append, List.dropWhile_cons, bne_iff_ne, ne_eq, hc,
      not_false_eq_true, if_true]
    exact ih fun m => h (List.mem_cons_of_mem c m)

/-- Splitting `key=val` at the first `=` yields the two-element vector
`[key, val]` when `key` itself has no `=`. -/
theorem g_strsplit_eq2_append (key val : CStr) (h : '=' ∉ key) :
    g_strsplit_eq2 (key ++ '=' :: val) = [key, val] := by
  have hne : (key ++ '=' :: val).isEmpty = false := by cases key <;> rfl
  unfold g_strsplit_eq2
  rw [hne, dropWhile_append_no_eq val key h, takeWhile_append_no_eq val key h]
  rfl

/-- A token without `=` produces a vector with fewer than two entries,
so `interpret_option` returns before dispatching. -/
theorem interpret_ev_no_eq (opt : CStr) (h : '=' ∉ opt) :
    interpret_option_ev opt = none := by
  have hd := dropWhile_no_eq opt h
  unfold interpret_option_ev g_strsplit_eq2
  rw [hd]
  cases opt <;> rfl

/-- The token fold of `parse_options` equals applying the sequence of
dispatched invocations in order. -/
theorem foldl_interpret_eq (toks : List CStr) (cfg : DocConfig) :
    toks.foldl interpret_option cfg =
      (toks.filterMap interpret_option_ev).foldl apply_inv cfg := by
  induction toks generalizing cfg with
  | nil => rfl
  | cons t ts ih =>
    cases h : interpret_option_ev t with
    | none =>
      simp only [List.foldl_cons, List.filterMap_cons, interpret_option, h]
      exact ih _
    | some inv =>
      simp only [List.foldl_cons, List.filterMap_cons, interpret_option, h]
      exact ih _

/-- One invocation either writes a fixed indent type or keeps it. -/
theorem apply_inv_indentType (cfg : DocConfig) (i : Invocation) :
    (apply_inv cfg i).indentType = (writesType i).getD cfg.indentType := by
  obtain ⟨cb, arg⟩ := i
  cases cb <;> cases arg <;> rfl

/-- One invocation either writes a fixed indent width or keeps it. -/
theorem apply_inv_indentWidth (cfg : DocConfig) (i : Invocation) :
    (apply_inv cfg i).indentWidth = (writesWidth i).getD cfg.indentWidth := by
  obtain ⟨cb, arg⟩ := i
  cases cb <;> cases arg <;> rfl

/-- One invocation either writes a fixed wrap mode or keeps it. -/
theorem apply_inv_lineWrapping (cfg : DocConfig) (i : Invocation) :
    (apply_inv cfg i).lineWrapping = (writesWrap i).getD cfg.lineWrapping := by
  obtain ⟨cb, arg⟩ := i
  cases cb <;> cases arg <;> rfl

/-- One invocation either writes a fixed encoding or keeps it. -/
theorem apply_inv_encoding (cfg : DocConfig) (i : Invocation) :
    (apply_inv cfg i).encoding = (writesEnc i).getD cfg.encoding := by
  obtain ⟨cb, arg⟩ := i
  cases cb <;> cases arg <;> rfl

/-- Last-write-wins: each configuration field after a fold of
invocations is the last value written to it, or the initial value when
none is written. -/
theorem foldl_apply_inv_field {α : Type} (f : Invocation → Option α)
    (proj : DocConfig → α)
    (hstep : ∀ cfg i, proj (apply_inv cfg i) = (f i).getD (proj cfg)) :
    ∀ (invs : List Invocation) (cfg : DocConfig),
      proj (invs.foldl apply_inv cfg) = (lastW f invs).getD (proj cfg) := by
  intro invs
  induction invs with
  | nil => intro cfg; rfl
  | cons i is ih =>
    intro cfg
    rw [List.foldl_cons, ih, hstep]
    cases h : lastW f is <;> simp [lastW, h]

/-- Replaying the same invocation sequence on its own result changes
nothing. -/
theorem foldl_apply_inv_idem (invs : List Invocation) (cfg : DocConfig) :
    invs.foldl apply_inv (invs.foldl apply_inv cfg) = invs.foldl apply_inv cfg := by
  refine DocConfig.ext ?_ ?_ ?_ ?_
  · rw [foldl_apply_inv_field writesType DocConfig.indentType apply_inv_indentType,
      foldl_apply_inv_field writesType DocConfig.indentType apply_inv_indentType]
    cases h : lastW writesType invs <;> simp [h]
  · rw [foldl_apply_inv_field writesWidth DocConfig.indentWidth apply_inv_indentWidth,
      foldl_apply_inv_field writesWidth DocConfig.indentWidth apply_inv_indentWidth]
    cases h : lastW writesWidth invs <;> simp [h]
  · rw [foldl_apply_inv_field writesWrap DocConfig.lineWrapping apply_inv_lineWrapping,
      foldl_apply_inv_field writesWrap DocConfig.lineWrapping apply_inv_lineWrapping]
    cases h : lastW writesWrap invs <;> simp [h]
  · rw [foldl_apply_inv_field writesEnc DocConfig.encoding apply_inv_encoding,
      foldl_apply_inv_field writesEnc DocConfig.encoding apply_inv_encoding]
    cases h : lastW writesEnc invs <;> simp [h]

/-- Parsing the same modeline again on its own result changes nothing. -/
theorem parse_options_idem (cfg : DocConfig) (buf : CStr) :
    parse_options (parse_options cfg buf) buf = parse_options cfg buf := by
  simp only [parse_options, foldl_interpret_eq]
  exact foldl_apply_inv_idem _ _

/-- Scanning the same document again on its own result changes nothing. -/
theorem scan_document_idem (cfg : DocConfig) (docLines : List CStr) :
    scan_document (scan_document cfg docLines) docLines = scan_document cfg docLines := by
  simp only [scan_document, scan_go_eq_find]
  cases h : (docLines.take 50).find? line_matches with
  | none => rfl
  | some l => exact parse_options_idem cfg (g_strstrip l)

/-- C1: the claim says interpreting "et" invokes the expand-tab handler
with true, "noexpandtab" invokes it with false, and "ts=4" sets indent
width 4.  Evaluating the code: a token with no `=` makes
`g_strsplit (opt, "=", 2)` return a one-element vector, so `val` is
NULL and `interpret_option` returns before the table scan — no handler
is dispatched for "et" or "noexpandtab"; only "ts=4" dispatches, with
the tab-stop handler and integer 4. -/
theorem C1_bare_flag_not_dispatched :
    interpret_option_ev (cs "et") = none ∧
    interpret_option_ev (cs "noexpandtab") = none ∧
    interpret_option_ev (cs "ts=4") = some ⟨HandlerId.tabStop, HandlerArg.int 4⟩ :=
  ⟨rfl, rfl, rfl⟩

/-- C2: the claim says "=4" and "ts=" are both no-ops.  Evaluating the
code: "=4" splits into an empty key that matches no table row, so it is
a no-op; but "ts=" splits into key "ts" with the empty string (non-NULL)
as value, the `!key || !val` guard does not fire, and the tab-stop
handler is invoked with `g_ascii_strtoull ("") = 0`, setting the indent
width to 0. -/
theorem C2_trailing_eq_dispatches_zero :
    interpret_option_ev (cs "=4") = none ∧
    interpret_option_ev (cs "ts=") = some ⟨HandlerId.tabStop, HandlerArg.int 0⟩ ∧
    interpret_option ⟨IndentType.tabs, 8, false, cs "UTF-8"⟩ (cs "ts=") =
      ⟨IndentType.tabs, 0, false, cs "UTF-8"⟩ :=
  ⟨rfl, rfl, rfl⟩

/-- C3: the claim says that after the open pipeline on a document whose
first line is "// vim: et ts=2 sw=2", indent style is spaces and indent
width is 2.  Evaluating the code from tabs/width 8: the width does
become 2 (last of ts=2, sw=2), but the bare token "et" is dropped by the
missing-`=` early return, so the indent style stays tabs. -/
theorem C3_open_pipeline_et_dropped :
    on_document_open ⟨IndentType.tabs, 8, false, cs "UTF-8"⟩ [cs "// vim: et ts=2 sw=2"] =
      ⟨IndentType.tabs, 2, false, cs "UTF-8"⟩ :=
  rfl

/-- C4 counterexample: tokenizing "# vim:noexpandtab sw=4 ts=4" does not
yield ["noexpandtab", "sw=4", "ts=4"] — only the first delimiter field
"#" is discarded, so the marker word "vim" is also produced as a token. -/
theorem C4_counterexample :
    tokenize (cs "# vim:noexpandtab sw=4 ts=4") ≠
      [cs "noexpandtab", cs "sw=4", cs "ts=4"] := by
  decide

/-- C4 (amended): tokenizing the matched line "# vim:noexpandtab sw=4
ts=4" yields exactly ["vim", "noexpandtab", "sw=4", "ts=4"]: the line is
split on the delimiters, only the first produced field is discarded (the
marker word "vim" is kept, to be ignored later by the interpreter as an
unknown key), and the relative order of the remaining fields is
preserved. -/
theorem C4_tokenize_exact :
    tokenize (cs "# vim:noexpandtab sw=4 ts=4") =
      [cs "vim", cs "noexpandtab", cs "sw=4", cs "ts=4"] :=
  rfl

/-- C5: the scanner examines only lines 0 .. min(lineCount, 50) in
order; a line whose whitespace-stripped form contains one of the
mode_pre markers as a substring anywhere is the modeline candidate; only
the first such line in scanning order is tokenized (scanning stops with
it), and if no line in the range matches, the configuration is left
untouched. -/
theorem C5_scan_selects_first_match (cfg : DocConfig) (docLines : List CStr) :
    scan_document cfg docLines =
      match (docLines.take 50).find? line_matches with
      | some l => parse_options cfg (g_strstrip l)
      | none => cfg :=
  scan_go_eq_find (docLines.take 50) cfg

/-- C6: for every document in which no line among the first
min(lineCount, 50) contains a recognized marker after stripping, both
lifecycle entry points leave every configuration field unchanged. -/
theorem C6_no_marker_no_mutation (cfg : DocConfig) (docLines : List CStr)
    (h : ∀ l ∈ docLines.take 50, line_matches l = false) :
    on_document_open cfg docLines = cfg ∧ on_document_save cfg docLines = cfg := by
  have hf : (docLines.take 50).find? line_matches = none :=
    List.find?_eq_none.2 fun x hx => by simp [h x hx]
  have hs : scan_document cfg docLines = cfg := by
    unfold scan_document
    rw [scan_go_eq_find, hf]
  exact ⟨hs, hs⟩

/-- C6 witness: a concrete two-line document with no marker is left
unchanged by both entry points. -/
theorem C6_no_marker_no_mutation_witness :
    on_document_open ⟨IndentType.tabs, 8, false, cs "UTF-8"⟩ [cs "hello", cs "world"] =
      ⟨IndentType.tabs, 8, false, cs "UTF-8"⟩ ∧
    on_document_save ⟨IndentType.tabs, 8, false, cs "UTF-8"⟩ [cs "hello", cs "world"] =
      ⟨IndentType.tabs, 8, false, cs "UTF-8"⟩ :=
  C6_no_marker_no_mutation ⟨IndentType.tabs, 8, false, cs "UTF-8"⟩ [cs "hello", cs "world"]
    (by decide)

/-- The dispatch of a well-formed `key=val` token, as a function of the
table row found for `key`. -/
theorem interpret_ev_kv (key val : CStr) (hne : '=' ∉ key) :
    interpret_option_ev (key ++ '=' :: val) =
      match lookup_opt key with
      | some o =>
        match o.arg_type with
        | ModeOptArg.argTrue => some ⟨o.cb, HandlerArg.int 1⟩
        | ModeOptArg.argFalse => some ⟨o.cb, HandlerArg.int 0⟩
        | ModeOptArg.int =>
          some ⟨o.cb, HandlerArg.int (gint_of_guint64 (g_ascii_strtoull10 (g_strstrip val)))⟩
        | ModeOptArg.str => some ⟨o.cb, HandlerArg.str val⟩
      | none => none := by
  unfold interpret_option_ev
  rw [g_strsplit_eq2_append key val hne]

/-- C7: for every integer-kind token with a value present (a `key=val`
token whose key resolves to an integer-kind table row), the value is
stripped of surrounding whitespace and parsed with the unsigned base-10
`g_ascii_strtoull` — a parse failure yielding 0 — then narrowed to a
`gint`, and the handler is invoked with the result; for an integer-kind
token with no value present (bare key, no `=`), no handler is invoked. -/
theorem C7_int_token_dispatch (key val : CStr) (o : ModeOpt)
    (hne : '=' ∉ key) (hl : lookup_opt key = some o)
    (ht : o.arg_type = ModeOptArg.int) :
    interpret_option_ev (key ++ '=' :: val) =
      some ⟨o.cb, HandlerArg.int (gint_of_guint64 (g_ascii_strtoull10 (g_strstrip val)))⟩ ∧
    interpret_option_ev key = none := by
  obtain ⟨nm, al, atype, hcb⟩ := o
  have ht2 : atype = ModeOptArg.int := ht
  subst ht2
  refine ⟨?_, interpret_ev_no_eq key hne⟩
  rw [interpret_ev_kv key val hne, hl]

/-- C7 witness: the token "ts= x1 " has key "ts" (the tabstop alias,
integer kind) and value " x1 "; the stripped value "x1" fails the
unsigned decimal parse, so the tab-stop handler is invoked with 0; the
bare token "ts" dispatches nothing. -/
theorem C7_int_token_dispatch_witness :
    interpret_option_ev (cs "ts" ++ '=' :: cs " x1 ") =
      some ⟨HandlerId.tabStop, HandlerArg.int 0⟩ ∧
    interpret_option_ev (cs "ts") = none :=
  C7_int_token_dispatch (cs "ts") (cs " x1 ")
    ⟨cs "tabstop", some (cs "ts"), ModeOptArg.int, HandlerId.tabStop⟩
    (by decide) (by decide) rfl

/-- C8: every invocation of the shared tabstop/softtabstop/shiftwidth
handler with integer argument n sets the indent width to n and leaves
the indent style equal to the style configured before the invocation. -/
theorem C8_tab_stop_sets_width_keeps_style (cfg : DocConfig) (n : Int) :
    (opt_tab_stop cfg n).indentWidth = n ∧
    (opt_tab_stop cfg n).indentType = cfg.indentType :=
  ⟨rfl, rfl⟩

/-- C9: running the pipeline twice in succession on a document whose
line contents are unchanged yields the same final configuration (indent
style, indent width, line-wrap mode, encoding) as running it once, for
both lifecycle entry points. -/
theorem C9_apply_modelines_idempotent (cfg : DocConfig) (docLines : List CStr) :
    on_document_open (on_document_open cfg docLines) docLines =
      on_document_open cfg docLines ∧
    on_document_save (on_document_save cfg docLines) docLines =
      on_document_save cfg docLines :=
  ⟨scan_document_idem cfg docLines, scan_document_idem cfg docLines⟩

/-- C10: interpreting the empty-string token (as produced by runs of
consecutive delimiters) invokes no handler and mutates no configuration
field, so consecutive delimiters, as in "a::b", have no effect beyond
the tokens around them. -/
theorem C10_empty_token_noop (cfg : DocConfig) :
    interpret_option_ev (cs "") = none ∧
    interpret_option cfg (cs "") = cfg ∧
    parse_options cfg (cs "x a::b") = parse_options cfg (cs "x a:b") :=
  ⟨rfl, rfl, rfl⟩
